import Mathlib

/-!
Shallow embedding of the fetch/parse/merge pipeline of `gluon_news`
(`src/main.rs`), together with theorems about its behaviour.

Mapping from the Rust source:

* `feed_rs::model::Entry` (the fields the program reads: `title`, `summary`,
  `links`, `published`) becomes `GluonNews.Entry`; text content is `String`,
  the publication time (`DateTime<Utc>`) is modelled as an `Int` with the
  `Default` value being `0` (the epoch).
* `feed_rs::model::Feed` (fields read: `title`, `entries`) becomes
  `GluonNews.Feed`.
* A `reqwest::Response` is modelled by the only observation the program makes
  of it, the result of `.text()`: `GluonNews.Response` carries
  `text : Option String` (`none` models a body-decoding failure).
* One spawned request task yields, at `task.await`, an
  `Option (Except Unit Response)`: the outer `Option` is the join result
  (`none` models a `JoinError`, on which line 61 calls `.unwrap()` and
  panics), the `Except` is the transport-level `Result` of `send()`.
* `feed_rs::parser::parse` is an external library call; it is a parameter
  `parse : String → Option Feed` of the pipeline (`none` = parse failure,
  matching `.ok()` filtering on line 71).
* `entries.sort_by(|a, b| b.1.published.unwrap_or_default().cmp(&…))`
  (lines 89–93) is Rust's stable sort under the comparator that orders by
  published time descending; it is modelled by the stable `List.mergeSort`
  with `le a b ↔ published b ≤ published a`.
* The per-entry view construction inside `App` (lines 143–157) becomes
  `mkEntryProps`; `summary.content.replace("href", "")` is the single
  left-to-right non-overlapping replacement pass `stripHref`, and
  `e.0.chars().take(100).collect()` is `List.take 100` on the character list.
-/

namespace GluonNews

/-- The fields of `feed_rs::model::Entry` that the program reads. -/
structure Entry where
  title : Option String
  summary : Option String
  links : List String
  published : Option Int
deriving DecidableEq, Repr

/-- The fields of `feed_rs::model::Feed` that the program reads. -/
structure Feed where
  title : Option String
  entries : List Entry
deriving DecidableEq, Repr

/-- A `reqwest::Response`, observed only through `.text()`:
`none` models a decoding failure (`r.text()` returning `Err`). -/
structure Response where
  text : Option String
deriving DecidableEq, Repr

/-- The outcome of `task.await` for one spawned request task:
`none` is a `JoinError`; `Except.error ()` is a transport failure of
`send()`; `Except.ok r` is a successful response. -/
abbrev TaskOutput := Option (Except Unit Response)

/-- A `(String, Entry)` pair as pushed onto `entries` in `fetch_news`. -/
abbrev NEntry := String × Entry

/-- The feed title fallback of lines 77–80: the feed's title content,
or `"N/A"` when the feed has none. -/
def feedTitleOf (f : Feed) : String :=
  match f.title with
  | some t => t
  | none => "N/A"

/-- Line 63: keep the transport-level successes
(`outputs.into_iter().filter_map(|r| r.ok())`). -/
def okResponses (joined : List (Except Unit Response)) : List Response :=
  joined.filterMap Except.toOption

/-- Lines 64–68: decode each response body, keeping the successes
(`join_all(responses… .map(|r| r.text())) … .filter_map(|r| r.ok())`). -/
def collectTexts (responses : List Response) : List String :=
  responses.filterMap Response.text

/-- Lines 69–72: parse each body, keeping the feeds that parse
(`texts… .filter_map(|t| parser::parse(t.as_bytes()).ok())`). -/
def parseFeeds (parse : String → Option Feed) (texts : List String) : List Feed :=
  texts.filterMap parse

/-- Lines 73–83: the nested `for feed in feeds { for entry in feed.entries
{ … entries.push((feed_title, entry)) } }` loop. -/
def collectEntries : List Feed → List NEntry
  | [] => []
  | f :: fs => f.entries.map (fun e => (feedTitleOf f, e)) ++ collectEntries fs

/-- The sort key of lines 90–92: `published.unwrap_or_default()`. -/
def entryKey (e : NEntry) : Int :=
  e.2.published.getD 0

/-- Lines 89–93: `entries.sort_by(|a, b| b.1.published.unwrap_or_default()
.cmp(&a.1.published.unwrap_or_default()))` — Rust's stable sort, descending
by publication time.  Modelled by the stable `List.mergeSort` under the
corresponding total preorder. -/
def sortEntries (entries : List NEntry) : List NEntry :=
  entries.mergeSort (fun a b => decide (entryKey b ≤ entryKey a))

/-- Lines 59–62: the `for task in tasks { outputs.push(task.await.unwrap()) }`
loop.  It unwraps the join results in order; the first `JoinError`
(modelled `none`) panics, yielding `none` here. -/
def awaitAll : List TaskOutput → Option (List (Except Unit Response))
  | [] => some []
  | none :: _ => none
  | some o :: rest => (awaitAll rest).map (o :: ·)

/-- Lines 51–96: `fetch_news`, as a function of the per-task outcomes
`outputs` (one per input URL, in input order) and of the external feed
parser.  `Except.error ()` models the panic of `task.await.unwrap()` on a
`JoinError` (line 61); otherwise the pipeline filters failures silently and
returns `none` exactly when no entry survived (lines 85–87), else the
stably sorted entry list (lines 89–95). -/
def fetch_news (parse : String → Option Feed) (outputs : List TaskOutput) :
    Except Unit (Option (List NEntry)) :=
  match awaitAll outputs with
  | none => Except.error ()
  | some joined =>
    let responses := okResponses joined
    let texts := collectTexts responses
    let feeds := parseFeeds parse texts
    let entries := collectEntries feeds
    if entries.isEmpty then
      Except.ok none
    else
      Except.ok (some (sortEntries entries))

/-- The merged (pre-sort) entry list produced from a list of
transport-level outcomes, i.e. the value of `entries` at line 83 when every
task join succeeds. -/
def mergedEntries (parse : String → Option Feed)
    (outcomes : List (Except Unit Response)) : List NEntry :=
  collectEntries (parseFeeds parse (collectTexts (okResponses outcomes)))

/-- `EntryProps` of lines 35–42: the per-entry view data built in `App`. -/
structure EntryProps where
  title : String
  summary : String
  link : String
  category : String
  published : Int
deriving DecidableEq, Repr

/-- `summary.content.replace("href", "")` (line 148): one left-to-right
non-overlapping scan removing each occurrence of the literal pattern
`href`, exactly `str::replace` with an empty replacement. -/
def stripHref : List Char → List Char
  | 'h' :: 'r' :: 'e' :: 'f' :: rest => stripHref rest
  | c :: rest => c :: stripHref rest
  | [] => []

/-- Lines 142–157: the `Entry` component props built in `App` from one
`(feed_title, entry)` pair of the `fetch_news` output. -/
def mkEntryProps (e : NEntry) : EntryProps where
  title :=
    match e.2.title with
    | some title => title
    | none => "N/A"
  summary :=
    match e.2.summary with
    | some summary => String.mk (stripHref summary.data)
    | none => "N/A"
  link :=
    match e.2.links.head? with
    | some link => link
    | none => "N/A"
  category := String.mk (e.1.data.take 100)
  published := e.2.published.getD 0

/-!
A model of the completion order of the concurrent requests (lines 53–62).
The spawned tasks run concurrently and may complete in any order; a
schedule lists the task indices in the order they complete.  `task.await`
then retrieves the (unique) outcome recorded for that task's index, so the
`outputs` vector is assembled in spawn order whatever the schedule was.
-/

/-- The completion events produced when the tasks with (transport-level)
outcomes `outcomes` complete in the order given by `sched`: each schedule
entry that names a valid task index records that task's outcome. -/
def completionEvents (outcomes : List (Except Unit Response))
    (sched : List Nat) : List (Nat × Except Unit Response) :=
  sched.filterMap fun i => (outcomes[i]?).map fun o => (i, o)

/-- `task.await` for the task with index `i`: the first completion event
recorded for `i`, when there is one (a task that never completes would
leave the join pending; under a complete schedule this never happens). -/
def awaitTask (events : List (Nat × Except Unit Response)) (i : Nat) :
    TaskOutput :=
  events.lookup i

/-- The `outputs` vector of lines 59–62 as assembled from the completion
events: one awaited outcome per task, in spawn order. -/
def gatherOutputs (outcomes : List (Except Unit Response))
    (sched : List Nat) : List TaskOutput :=
  (List.range outcomes.length).map fun i =>
    awaitTask (completionEvents outcomes sched) i

/-- `fetch_news` run on a fixed set of transport-level outcomes whose
tasks complete in the order `sched`. -/
def fetch_news_scheduled (parse : String → Option Feed)
    (outcomes : List (Except Unit Response)) (sched : List Nat) :
    Except Unit (Option (List NEntry)) :=
  fetch_news parse (gatherOutputs outcomes sched)

/-!
Concrete feeds, entries and a concrete parser, used to instantiate the
theorems below on closed inputs.
-/

/-- A raw entry with every optional field present. -/
def entA : Entry := ⟨some "A", some "see href here", ["la"], some 3⟩

/-- A raw entry with every optional field absent. -/
def entB : Entry := ⟨none, none, [], none⟩

/-- A raw entry whose summary rebuilds an occurrence of `href` when the
inner occurrence is removed. -/
def entC : Entry := ⟨some "C", some "hrhrefef", ["lc", "ld"], some 7⟩

/-- A concrete feed with a title and two entries. -/
def feedW : Feed := ⟨some "FW", [entA, entC]⟩

/-- A concrete feed with no title. -/
def feedNoTitle : Feed := ⟨none, [entB]⟩

/-- A 101-character feed title. -/
def longTitle : String := String.mk (List.replicate 101 'x')

/-- A concrete feed whose title exceeds 100 characters. -/
def feedLong : Feed := ⟨some longTitle, [entB]⟩

/-- A concrete stand-in for `feed_rs::parser::parse`: the body `"body"`
parses to `feedW`, the body `"long"` to `feedLong`, everything else fails
to parse. -/
def parseW : String → Option Feed := fun t =>
  if t = "body" then some feedW
  else if t = "long" then some feedLong
  else none

/-!  Helper lemmas. -/

/-- When every task join succeeds, the await loop returns all outcomes in
spawn order. -/
theorem awaitAll_map_some (l : List (Except Unit Response)) :
    awaitAll (l.map some) = some l := by
  induction l with
  | nil => rfl
  | cons a t ih => simp [awaitAll, ih]

/-- `fetch_news` on join-successful outputs: no panic, and the result is
`none` exactly when the merged entry list is empty, else its stable sort. -/
theorem fetch_news_map_some (parse : String → Option Feed)
    (outcomes : List (Except Unit Response)) :
    fetch_news parse (outcomes.map some) =
      Except.ok (if (mergedEntries parse outcomes).isEmpty then none
        else some (sortEntries (mergedEntries parse outcomes))) := by
  unfold fetch_news
  rw [awaitAll_map_some]
  dsimp only
  unfold mergedEntries
  split <;> simp [*]

/-- Transitivity of the sort comparator of lines 89–93. -/
theorem entryLe_trans : ∀ a b c : NEntry,
    decide (entryKey b ≤ entryKey a) = true →
    decide (entryKey c ≤ entryKey b) = true →
    decide (entryKey c ≤ entryKey a) = true := by
  intro a b c h1 h2
  simp only [decide_eq_true_eq] at *
  exact le_trans h2 h1

/-- Totality of the sort comparator of lines 89–93. -/
theorem entryLe_total : ∀ a b : NEntry,
    (decide (entryKey b ≤ entryKey a) || decide (entryKey a ≤ entryKey b)) = true := by
  intro a b
  simp [le_total]

/-- The sort is a permutation of its input. -/
theorem sortEntries_perm (l : List NEntry) : (sortEntries l).Perm l :=
  List.mergeSort_perm l _

/-- The sort output is ordered by publication time, descending. -/
theorem sortEntries_sorted (l : List NEntry) :
    (sortEntries l).Pairwise fun a b => entryKey b ≤ entryKey a := by
  have h := @List.sorted_mergeSort NEntry
    (fun a b : NEntry => decide (entryKey b ≤ entryKey a))
    entryLe_trans entryLe_total l
  exact h.imp fun hab => of_decide_eq_true hab

/-- Sorting returns the empty list only on the empty list. -/
theorem sortEntries_eq_nil_iff (l : List NEntry) : sortEntries l = [] ↔ l = [] := by
  constructor <;> intro h
  · have hlen := @List.length_mergeSort NEntry
      (fun a b : NEntry => decide (entryKey b ≤ entryKey a)) l
    rw [show l.mergeSort (fun a b => decide (entryKey b ≤ entryKey a)) = sortEntries l
        from rfl, h] at hlen
    exact List.length_eq_zero.mp hlen.symm
  · rw [h]; simp [sortEntries]

/-- On a collection whose keys admit a strictly descending arrangement
`l`, the sort yields exactly `l`. -/
theorem sortEntries_eq_of_sorted_perm (l m : List NEntry)
    (hs : l.Pairwise fun a b => entryKey b < entryKey a) (hp : m.Perm l) :
    sortEntries m = l := by
  haveI : IsAntisymm NEntry fun a b => entryKey b < entryKey a :=
    ⟨fun a b h1 h2 => absurd (lt_trans h1 h2) (lt_irrefl _)⟩
  have hperm : (sortEntries m).Perm l := (sortEntries_perm m).trans hp
  have hlne : l.Pairwise fun a b => entryKey a ≠ entryKey b :=
    hs.imp fun h => ne_of_gt h
  have hne : (sortEntries m).Pairwise fun a b => entryKey a ≠ entryKey b :=
    (hperm.pairwise_iff fun h => Ne.symm h).mpr hlne
  have hlt : (sortEntries m).Pairwise fun a b => entryKey b < entryKey a :=
    ((sortEntries_sorted m).and hne).imp fun h =>
      lt_of_le_of_ne h.1 fun e => h.2 e.symm
  exact List.eq_of_perm_of_sorted hperm hlt hs

/-- Stability: a tied (or already descending) pair keeps its input order. -/
theorem sortEntries_pair_sublist {a b : NEntry} {l : List NEntry}
    (hle : entryKey b ≤ entryKey a) (h : List.Sublist [a, b] l) :
    List.Sublist [a, b] (sortEntries l) :=
  List.pair_sublist_mergeSort entryLe_trans entryLe_total (decide_eq_true hle) h

/-- A summary without any occurrence of `href` is left unchanged by the
sanitization pass. -/
theorem stripHref_eq_self_of_no_occurrence :
    ∀ s : List Char, ¬ (['h', 'r', 'e', 'f'] <:+: s) → stripHref s = s := by
  intro s
  induction s using stripHref.induct with
  | case1 rest ih =>
    intro h
    exact absurd ⟨[], rest, rfl⟩ h
  | case2 c rest hne ih =>
    intro h
    have h2 : stripHref (c :: rest) = c :: stripHref rest := by
      rw [stripHref]
      exact hne
    rw [h2, ih fun hi => h (List.infix_cons hi)]
  | case3 =>
    intro h
    rfl

/-- The await loop succeeds when every join result is present. -/
theorem awaitAll_eq_some_of_all_isSome (outputs : List TaskOutput)
    (h : ∀ o ∈ outputs, o.isSome) : ∃ l, awaitAll outputs = some l := by
  induction outputs with
  | nil => exact ⟨[], rfl⟩
  | cons o rest ih =>
    cases o with
    | none => simp at h
    | some a =>
      obtain ⟨l, hl⟩ := ih fun o ho => h o (List.mem_cons_of_mem _ ho)
      exact ⟨a :: l, by simp [awaitAll, hl]⟩

/-- Awaiting task `i` under any schedule in which task `i` completes
returns task `i`'s own outcome. -/
theorem lookup_completionEvents (outcomes : List (Except Unit Response))
    (sched : List Nat) (i : Nat) (hi : i < outcomes.length) (hmem : i ∈ sched) :
    (completionEvents outcomes sched).lookup i = outcomes[i]? := by
  induction sched with
  | nil => cases hmem
  | cons j rest ih =>
    by_cases hij : i = j
    · subst hij
      rw [List.getElem?_eq_getElem hi]
      simp [completionEvents, List.getElem?_eq_getElem hi, List.lookup_cons]
    · have hmem' : i ∈ rest := by
        rcases List.mem_cons.mp hmem with h | h
        · exact absurd h hij
        · exact h
      cases hj : outcomes[j]? with
      | none =>
        have hcons : completionEvents outcomes (j :: rest) =
            completionEvents outcomes rest := by
          simp [completionEvents, hj]
        rw [hcons]
        exact ih hmem'
      | some o =>
        have hcons : completionEvents outcomes (j :: rest) =
            (j, o) :: completionEvents outcomes rest := by
          simp [completionEvents, hj]
        have hbeq : (i == j) = false := by simpa using hij
        rw [hcons, List.lookup_cons]
        simp only [hbeq]
        exact ih hmem'

/-- Under any complete schedule the `outputs` vector of lines 59–62 is the
outcomes in spawn order, independent of the completion order. -/
theorem gatherOutputs_complete (outcomes : List (Except Unit Response))
    (sched : List Nat) (h : ∀ i, i < outcomes.length → i ∈ sched) :
    gatherOutputs outcomes sched = outcomes.map some := by
  apply List.ext_getElem
  · simp [gatherOutputs]
  · intro n h1 h2
    have hn : n < outcomes.length := by simpa [gatherOutputs] using h1
    simp only [gatherOutputs, List.getElem_map, List.getElem_range, awaitTask]
    rw [lookup_completionEvents outcomes sched n hn (h n hn),
      List.getElem?_eq_getElem hn]

/-!  The claims. -/

/-- C1 (partial failure tolerance): when a subset of the requests fail at
the transport level, `fetch_news` returns normally (no error value reaches
the caller) and its output is determined by exactly the succeeding subset
of responses — failed requests contribute zero entries — and a response
body that fails to parse contributes zero entries, its feed being dropped
as a whole. -/
theorem C1_partial_failure_tolerance (parse : String → Option Feed)
    (outcomes : List (Except Unit Response)) :
    fetch_news parse (outcomes.map some) =
      Except.ok (if (mergedEntries parse outcomes).isEmpty then none
        else some (sortEntries (mergedEntries parse outcomes)))
    ∧ mergedEntries parse outcomes =
        mergedEntries parse ((okResponses outcomes).map Except.ok)
    ∧ ∀ texts : List String,
        parseFeeds parse texts =
          parseFeeds parse (texts.filter fun t => (parse t).isSome) := by
  refine ⟨fetch_news_map_some parse outcomes, ?_, ?_⟩
  · unfold mergedEntries okResponses
    rw [List.filterMap_map]
    simp [Function.comp_def, Except.toOption, List.filterMap_some]
  · intro texts
    unfold parseFeeds
    induction texts with
    | nil => rfl
    | cons t rest ih =>
      cases hp : parse t <;>
        simp [List.filter_cons, hp, List.filterMap_cons, ih]

/-- C2 (total failure collapses to one signal): `fetch_news` yields `none`
on an empty source list, when every request fails at the transport level,
and when every body fails to parse; in general the result is `Except.ok
none` iff the merged entry list is empty, and a `some` result is never the
empty list. -/
theorem C2_total_failure_collapses (parse : String → Option Feed) :
    fetch_news parse [] = Except.ok none
    ∧ (∀ outcomes : List (Except Unit Response),
        (∀ o ∈ outcomes, o.toOption = none) →
        fetch_news parse (outcomes.map some) = Except.ok none)
    ∧ (∀ bodies : List String, (∀ b ∈ bodies, parse b = none) →
        fetch_news parse (bodies.map fun b => some (Except.ok ⟨some b⟩)) =
          Except.ok none)
    ∧ (∀ outcomes : List (Except Unit Response),
        fetch_news parse (outcomes.map some) = Except.ok none ↔
          mergedEntries parse outcomes = [])
    ∧ ∀ outputs : List TaskOutput, ∀ l : List NEntry,
        fetch_news parse outputs = Except.ok (some l) → l ≠ [] := by
  refine ⟨rfl, ?_, ?_, ?_, ?_⟩
  · intro outcomes hfail
    rw [fetch_news_map_some]
    have hmerged : mergedEntries parse outcomes = [] := by
      have hok : okResponses outcomes = [] := by
        simp only [okResponses, List.filterMap_eq_nil_iff]
        exact hfail
      rw [mergedEntries, hok]
      rfl
    rw [hmerged]
    rfl
  · intro bodies hfail
    have hmap : (bodies.map fun b => some ((Except.ok ⟨some b⟩ : Except Unit Response))) =
        (bodies.map fun b => (Except.ok ⟨some b⟩ : Except Unit Response)).map some := by
      rw [List.map_map]
      rfl
    rw [hmap, fetch_news_map_some]
    have hmerged :
        mergedEntries parse
          (bodies.map fun b => (Except.ok ⟨some b⟩ : Except Unit Response)) = [] := by
      unfold mergedEntries okResponses collectTexts parseFeeds
      rw [List.filterMap_map]
      have h1 : ∀ bs : List String, (bs.filterMap
          (Except.toOption ∘ fun b => (Except.ok ⟨some b⟩ : Except Unit Response))) =
          bs.map fun b => (⟨some b⟩ : Response) := by
        intro bs
        induction bs with
        | nil => rfl
        | cons b rest ih => simp [List.filterMap_cons, ih, Except.toOption]
      rw [h1, List.filterMap_map]
      have h2 : ∀ bs : List String, (bs.filterMap
          (Response.text ∘ fun b => (⟨some b⟩ : Response))) = bs := by
        intro bs
        induction bs with
        | nil => rfl
        | cons b rest ih => simp [List.filterMap_cons, ih]
      rw [h2, List.filterMap_eq_nil_iff.mpr hfail]
      rfl
    rw [hmerged]
    rfl
  · intro outcomes
    rw [fetch_news_map_some]
    by_cases he : (mergedEntries parse outcomes).isEmpty
    · rw [if_pos he]
      simpa [List.isEmpty_iff] using he
    · rw [if_neg he]
      constructor
      · intro h
        simp at h
      · intro h
        exact absurd (List.isEmpty_iff.mpr h) he
  · intro outputs l h
    unfold fetch_news at h
    cases hA : awaitAll outputs with
    | none =>
      rw [hA] at h
      simp at h
    | some joined =>
      rw [hA] at h
      dsimp only at h
      by_cases he :
          (collectEntries (parseFeeds parse (collectTexts (okResponses joined)))).isEmpty
      · rw [if_pos he] at h
        simp at h
      · rw [if_neg he] at h
        simp only [Except.ok.injEq, Option.some.injEq] at h
        intro hnil
        rw [← h, sortEntries_eq_nil_iff] at hnil
        exact he (List.isEmpty_iff.mpr hnil)

/-- Witness for C2 at concrete inputs: the empty list, all-failing
requests, and an all-unparseable body give the identical `none` outcome. -/
theorem C2_total_failure_collapses_witness :
    fetch_news parseW [] = Except.ok none
    ∧ fetch_news parseW ([Except.error (), Except.error ()].map some) = Except.ok none
    ∧ fetch_news parseW (["junk"].map fun b => some (Except.ok ⟨some b⟩)) =
        Except.ok none := by
  obtain ⟨h1, h2, h3, -, -⟩ := C2_total_failure_collapses parseW
  exact ⟨h1, h2 [Except.error (), Except.error ()] (by decide),
    h3 ["junk"] (by decide)⟩

/-- C3 (sort correctness): when the merged entries admit an arrangement
`l` with pairwise distinct, strictly descending publication keys (missing
times defaulting to the epoch), `fetch_news` outputs exactly `l`, newest
first. -/
theorem C3_sort_correctness (parse : String → Option Feed)
    (outcomes : List (Except Unit Response)) (l : List NEntry)
    (hne : l ≠ [])
    (hsorted : l.Pairwise fun a b => entryKey b < entryKey a)
    (hperm : (mergedEntries parse outcomes).Perm l) :
    fetch_news parse (outcomes.map some) = Except.ok (some l) := by
  rw [fetch_news_map_some]
  have hmne : mergedEntries parse outcomes ≠ [] := by
    intro h0
    rw [h0] at hperm
    exact hne hperm.symm.eq_nil
  rw [if_neg (by simpa [List.isEmpty_iff] using hmne),
    sortEntries_eq_of_sorted_perm l _ hsorted hperm]

/-- Witness for C3: two entries with keys 7 > 3 come out newest first. -/
theorem C3_sort_correctness_witness :
    fetch_news parseW ([Except.ok ⟨some "body"⟩, Except.error ()].map some) =
      Except.ok (some [("FW", entC), ("FW", entA)]) :=
  C3_sort_correctness parseW [Except.ok ⟨some "body"⟩, Except.error ()]
    [("FW", entC), ("FW", entA)] (by decide) (by decide) (by decide)

/-- C4 (tie stability): two entries whose publication keys compare equal
(including two entries with no published time, which default identically)
keep their input relative order in the sorted output; with `fetch_news` a
function of its input, repeated runs on the same input therefore give the
same relative order. -/
theorem C4_tie_stability (l : List NEntry) (a b : NEntry)
    (htie : entryKey a = entryKey b) (hin : List.Sublist [a, b] l) :
    List.Sublist [a, b] (sortEntries l) :=
  sortEntries_pair_sublist (le_of_eq htie.symm) hin

/-- Witness for C4: two entries with no published time keep their order. -/
theorem C4_tie_stability_witness :
    List.Sublist [("x", entB), ("y", entB)]
      (sortEntries [("x", entB), ("z", entA), ("y", entB)]) :=
  C4_tie_stability [("x", entB), ("z", entA), ("y", entB)]
    ("x", entB) ("y", entB) (by decide) (by decide)

/-- C5 (completion-order independence): for a fixed list of per-request
outcomes, any two completion schedules under which every task completes
give the identical final output. -/
theorem C5_completion_order_independence (parse : String → Option Feed)
    (outcomes : List (Except Unit Response)) (sched1 sched2 : List Nat)
    (h1 : ∀ i, i < outcomes.length → i ∈ sched1)
    (h2 : ∀ i, i < outcomes.length → i ∈ sched2) :
    fetch_news_scheduled parse outcomes sched1 =
      fetch_news_scheduled parse outcomes sched2 := by
  unfold fetch_news_scheduled
  rw [gatherOutputs_complete outcomes sched1 h1,
    gatherOutputs_complete outcomes sched2 h2]

/-- Witness for C5: two tasks completing in either order give the same
output. -/
theorem C5_completion_order_independence_witness :
    fetch_news_scheduled parseW [Except.ok ⟨some "body"⟩, Except.error ()] [0, 1] =
      fetch_news_scheduled parseW [Except.ok ⟨some "body"⟩, Except.error ()] [1, 0] :=
  C5_completion_order_independence parseW
    [Except.ok ⟨some "body"⟩, Except.error ()] [0, 1] [1, 0]
    (by decide) (by decide)

/-- C6 (summary sanitization): an entry that has a summary renders it with
every occurrence of the literal substring `href` removed by the single
replacement pass and with no other transformation (a summary without an
occurrence is rendered verbatim); on `"see href here"` the output is
`"see  here"` with two spaces. -/
theorem C6_summary_sanitization :
    (∀ (e : NEntry) (s : String), e.2.summary = some s →
      (mkEntryProps e).summary = String.mk (stripHref s.data)
      ∧ (¬ (['h', 'r', 'e', 'f'] <:+: s.data) → (mkEntryProps e).summary = s))
    ∧ (mkEntryProps ("FW", entA)).summary = "see  here" := by
  constructor
  · intro e s hs
    have hsum : (mkEntryProps e).summary = String.mk (stripHref s.data) := by
      simp [mkEntryProps, hs]
    refine ⟨hsum, fun hno => ?_⟩
    rw [hsum, stripHref_eq_self_of_no_occurrence s.data hno]
  · decide

/-- Witness for C6: the sanitization equation at a concrete summary, and
verbatim rendering of a summary with no `href` occurrence. -/
theorem C6_summary_sanitization_witness :
    (mkEntryProps ("FW", entC)).summary = String.mk (stripHref "hrhrefef".data)
    ∧ (mkEntryProps ("N", ⟨none, some "plain text", [], none⟩)).summary =
        "plain text" :=
  ⟨(C6_summary_sanitization.1 ("FW", entC) "hrhrefef" rfl).1,
    (C6_summary_sanitization.1 ("N", ⟨none, some "plain text", [], none⟩)
      "plain text" rfl).2 (by decide)⟩

/-- C7 (title truncation): every entry derived from a feed with title `t`
carries as its category field exactly the first 100 characters of `t`:
precisely 100 characters when `t` is longer than 100, and `t` unchanged
when `t` has at most 100 characters. -/
theorem C7_title_truncation (f : Feed) (t : String) (ht : f.title = some t)
    (p : NEntry) (hp : p ∈ collectEntries [f]) :
    (mkEntryProps p).category.data = t.data.take 100
    ∧ (100 < t.data.length → (mkEntryProps p).category.data.length = 100)
    ∧ (t.data.length ≤ 100 → (mkEntryProps p).category = t) := by
  have hp1 : p.1 = t := by
    simp only [collectEntries, List.append_nil, List.mem_map, feedTitleOf, ht] at hp
    obtain ⟨e, -, he⟩ := hp
    rw [← he]
  have hcat : (mkEntryProps p).category = String.mk (t.data.take 100) := by
    simp [mkEntryProps, hp1]
  refine ⟨by rw [hcat], fun h100 => ?_, fun h100 => ?_⟩
  · rw [hcat]
    simp only [List.length_take]
    omega
  · rw [hcat, List.take_of_length_le h100]

/-- Witness for C7: a 101-character title is cut to 100 characters, and a
2-character title is kept unchanged. -/
theorem C7_title_truncation_witness :
    (mkEntryProps (longTitle, entB)).category.data.length = 100
    ∧ (mkEntryProps ("FW", entA)).category = "FW" :=
  ⟨(C7_title_truncation feedLong longTitle rfl (longTitle, entB)
      (by decide)).2.1 (by decide),
    (C7_title_truncation feedW "FW" rfl ("FW", entA)
      (by decide)).2.2 (by decide)⟩

/-- C8 (fallback substitution): a missing entry title, summary, link list
or publish time yields `"N/A"`, `"N/A"`, `"N/A"` and the epoch timestamp
respectively, a feed with no title yields category `"N/A"` for all its
entries, and the fallback is never the empty string. -/
theorem C8_fallback_substitution (e : NEntry) (f : Feed) :
    (e.2.title = none → (mkEntryProps e).title = "N/A")
    ∧ (e.2.summary = none → (mkEntryProps e).summary = "N/A")
    ∧ (e.2.links = [] → (mkEntryProps e).link = "N/A")
    ∧ (e.2.published = none → (mkEntryProps e).published = 0)
    ∧ (f.title = none → ∀ p ∈ collectEntries [f], (mkEntryProps p).category = "N/A")
    ∧ ("N/A" : String) ≠ "" := by
  refine ⟨?_, ?_, ?_, ?_, ?_, by decide⟩
  · intro h
    simp [mkEntryProps, h]
  · intro h
    simp [mkEntryProps, h]
  · intro h
    simp [mkEntryProps, h]
  · intro h
    simp [mkEntryProps, h]
  · intro h p hp
    simp only [collectEntries, List.append_nil, List.mem_map, feedTitleOf, h] at hp
    obtain ⟨e2, -, he⟩ := hp
    rw [← he]
    show String.mk ("N/A".data.take 100) = "N/A"
    decide

/-- Witness for C8: an entry with every optional field absent, inside a
feed with no title, renders as all `"N/A"` fields and the epoch time. -/
theorem C8_fallback_substitution_witness :
    (mkEntryProps ("N/A", entB)).title = "N/A"
    ∧ (mkEntryProps ("N/A", entB)).summary = "N/A"
    ∧ (mkEntryProps ("N/A", entB)).link = "N/A"
    ∧ (mkEntryProps ("N/A", entB)).published = 0
    ∧ (mkEntryProps ("N/A", entB)).category = "N/A" := by
  have h := C8_fallback_substitution ("N/A", entB) feedNoTitle
  exact ⟨h.1 rfl, h.2.1 rfl, h.2.2.1 rfl, h.2.2.2.1 rfl,
    h.2.2.2.2.1 rfl ("N/A", entB) (by decide)⟩

/-- C9, counterexample: if a spawned task's join fails (the task panicked
or was aborted, modelled by the `none` outcome), `task.await.unwrap()` at
line 61 panics, so `fetch_news` does hit a fatal error rather than
returning the unavailable signal. -/
theorem C9_counterexample_join_panic :
    fetch_news parseW [none] = Except.error () := rfl

/-- C9, amended (no fatal error path): for every input URL list and every
outcome of the spawned request tasks in which each task's join succeeds
(no task panics or is aborted — transport-level failures included),
`fetch_news` completes without a fatal error; the worst outcome is the
unavailable signal `none`. -/
theorem C9_no_fatal_error_amended (parse : String → Option Feed)
    (outputs : List TaskOutput) (h : ∀ o ∈ outputs, o.isSome) :
    ∃ r : Option (List NEntry), fetch_news parse outputs = Except.ok r := by
  obtain ⟨l, hl⟩ := awaitAll_eq_some_of_all_isSome outputs h
  unfold fetch_news
  rw [hl]
  dsimp only
  split
  · exact ⟨none, rfl⟩
  · exact ⟨some _, rfl⟩

/-- Witness for the amended C9: a failing and a succeeding request, both
with successful joins, produce a non-panicking result. -/
theorem C9_no_fatal_error_amended_witness :
    ∃ r : Option (List NEntry),
      fetch_news parseW [some (Except.error ()), some (Except.ok ⟨some "body"⟩)] =
        Except.ok r :=
  C9_no_fatal_error_amended parseW
    [some (Except.error ()), some (Except.ok ⟨some "body"⟩)] (by decide)

/-- C10 (single-pass replacement): the sanitization is one left-to-right
non-overlapping pass, so the summary `"hrhrefef"` renders as `"href"` —
an occurrence of `href` formed by juxtaposition around the removed
occurrence survives in the output (a second pass would remove it). -/
theorem C10_single_pass_replacement :
    (mkEntryProps ("FW", entC)).summary = "href"
    ∧ ['h', 'r', 'e', 'f'] <:+: ((mkEntryProps ("FW", entC)).summary).data
    ∧ stripHref ((mkEntryProps ("FW", entC)).summary).data = [] :=
  ⟨by decide, by decide, by decide⟩

end GluonNews

